import Mathlib

/-!
Verification development for the evaluation-pipeline repository
(prompt generators, batched model client, answer parsers, metrics).

Each Python function the claims touch is shallowly embedded as an
executable Lean definition; stateful iteration becomes explicit state
passing, fallible code returns `Except`, HTTP transport becomes an
oracle parameter, and Python `dict`s become association lists or
structures with `Option` fields for possibly-missing keys.
-/

set_option autoImplicit false

namespace CourseProj

/-! ## Embedding of `src/evaluation/parsers.py` — `MultipleChoiceParser`

The parser is modelled in its default configuration
(`case_sensitive = False`, `allowed_options = "ABCDEFGHIJ"`), which is the
configuration all claims address.  `re.search` semantics are made explicit:
candidate start positions are scanned left to right, alternatives and greedy
optionals backtrack; where a backtracking branch provably can never succeed
this is noted at the definition. -/

/-- Python's `\s` character class (ASCII whitespace range). -/
def isSpaceCh (c : Char) : Bool :=
  c = ' ' || c = '\t' || c = '\n' || c = '\r' || c = '\x0b' || c = '\x0c'

/-- Membership in the character class `[ABCDEFGHIJ]` under `re.IGNORECASE`,
i.e. the character is one of the allowed option letters in either case. -/
def isAllowedOpt (c : Char) : Bool :=
  ("ABCDEFGHIJ".toList).contains c.toUpper

/-- The common pattern tail `(?:[\.\s]|$)`: the next character is a period or
whitespace, or the input ends here.  (Python's `$` also matches just before a
final newline, but a newline is itself `\s`, so the first alternative already
covers that case.) -/
def matchTail : List Char → Bool
  | [] => true
  | c :: _ => c = '.' || isSpaceCh c

/-- `([letter])\)?(?:[\.\s]|$)`: an allowed letter, a greedy optional closing
bracket, then the tail.  If the bracket is consumed but the tail fails, the
regex engine backtracks and tries the tail at the bracket itself — that
alternative is kept here verbatim (`matchTail rest`), though it can never
succeed because `)` is neither a period nor whitespace. -/
def matchLetterClose : List Char → Option Char
  | [] => none
  | c :: rest =>
    if isAllowedOpt c then
      match rest with
      | ')' :: rest2 =>
        if matchTail rest2 || matchTail (')' :: rest2) then some c else none
      | _ => if matchTail rest then some c else none
    else none

/-- `\(?([letter])\)?(?:[\.\s]|$)`: a greedy optional opening bracket before
the letter.  If `(` is consumed and the remainder fails, backtracking would
retry with the letter at the `(` itself, which always fails because `(` is
not an allowed letter — so consuming the bracket is the only live branch. -/
def matchCore : List Char → Option Char
  | [] => none
  | c :: rest => if c = '(' then matchLetterClose rest else matchLetterClose (c :: rest)

/-- The `\s`-anchored alternative of an anchored pattern, tried at every
start position left to right: wherever the current character is whitespace,
run the pattern body on the rest. -/
def searchAfterSpace (core : List Char → Option Char) : List Char → Option Char
  | [] => none
  | c :: rest => (if isSpaceCh c then core rest else none) <|> searchAfterSpace core rest

/-- `re.search` for a pattern of shape `(?:^|\s)<core>`: at position 0 the
zero-width `^` alternative is tried first, then the `\s` alternative at every
position (including position 0) left to right. -/
def searchAnchored (core : List Char → Option Char) (l : List Char) : Option Char :=
  core l <|> searchAfterSpace core l

/-- Case folding as `re.IGNORECASE` applies it to the literals occurring in
the parser's patterns: ASCII letters, plus the Cyrillic letters of the
literal "ответ". -/
def foldCase (c : Char) : Char :=
  if c = 'О' then 'о'
  else if c = 'Т' then 'т'
  else if c = 'В' then 'в'
  else if c = 'Е' then 'е'
  else c.toLower

/-- Case-insensitive match of a (lower-case) literal at the head of the
input, returning the remaining input on success. -/
def matchLit : List Char → List Char → Option (List Char)
  | [], l => some l
  | _ :: _, [] => none
  | p :: ps, c :: cs => if foldCase c = p then matchLit ps cs else none

/-- `[:\s]*`, greedy.  The continuation after the star starts with `(` or an
allowed letter, neither of which is in `[:\s]`, so only the maximal skip can
be continued and no backtracking case is needed. -/
def skipColonSpace : List Char → List Char
  | [] => []
  | c :: rest => if c = ':' || isSpaceCh c then skipColonSpace rest else c :: rest

/-- Body of the second pattern at one position:
`(?:ответ|answer)[:\s]*(?:\(?([letter])\)?)(?:[\.\s]|$)`.  The two literal
alternatives begin with distinct folded characters, so at any one position at
most one of them can match and the alternation order is immaterial there;
it is kept as written ("ответ" first). -/
def answerCueAt (l : List Char) : Option Char :=
  match matchLit "ответ".toList l with
  | some rest => matchCore (skipColonSpace rest)
  | none =>
    match matchLit "answer".toList l with
    | some rest => matchCore (skipColonSpace rest)
    | none => none

/-- `re.search` for the second (unanchored) pattern: try the body at every
start position left to right. -/
def searchAnswerCue : List Char → Option Char
  | [] => none
  | c :: rest => answerCueAt (c :: rest) <|> searchAnswerCue rest

/-- Body of the third pattern after its `(?:^|\s)` anchor:
`the answer is[:\s]*(?:\(?([letter])\)?)(?:[\.\s]|$)`. -/
def theAnswerIsAt (l : List Char) : Option Char :=
  match matchLit "the answer is".toList l with
  | some rest => matchCore (skipColonSpace rest)
  | none => none

/-- `MultipleChoiceParser.parse` under the default configuration: empty input
yields `""`; otherwise the three patterns are tried in order over the whole
input, the first captured letter is upper-cased and returned, and if no
pattern matches the result is `""`. -/
def mcParse (response : String) : String :=
  if response = "" then ""
  else
    match searchAnchored matchCore response.toList <|>
          searchAnswerCue response.toList <|>
          searchAnchored theAnswerIsAt response.toList with
    | some c => String.singleton c.toUpper
    | none => ""

/-! ### Auxiliary facts: every captured letter is in the allowed alphabet -/

theorem matchLetterClose_allowed {l : List Char} {c : Char}
    (h : matchLetterClose l = some c) : isAllowedOpt c = true := by
  cases l with
  | nil => simp [matchLetterClose] at h
  | cons c' rest =>
    simp only [matchLetterClose] at h
    by_cases ha : isAllowedOpt c' = true
    · simp only [ha, if_true] at h
      split at h <;> split at h <;> simp_all
    · simp [ha] at h

theorem matchCore_allowed {l : List Char} {c : Char}
    (h : matchCore l = some c) : isAllowedOpt c = true := by
  cases l with
  | nil => simp [matchCore] at h
  | cons c' rest =>
    simp only [matchCore] at h
    split at h
    · exact matchLetterClose_allowed h
    · exact matchLetterClose_allowed h

/-- A pattern body that only ever captures allowed letters. -/
def CapturesAllowed (body : List Char → Option Char) : Prop :=
  ∀ ⦃l : List Char⦄ ⦃c : Char⦄, body l = some c → isAllowedOpt c = true

theorem capturesAllowed_matchCore : CapturesAllowed matchCore :=
  fun _ _ h => matchCore_allowed h

theorem searchAfterSpace_allowed {core : List Char → Option Char}
    (hcore : CapturesAllowed core) : CapturesAllowed (searchAfterSpace core) := by
  intro l c h
  induction l with
  | nil => simp [searchAfterSpace] at h
  | cons c' rest ih =>
    simp only [searchAfterSpace] at h
    cases hx : (if isSpaceCh c' then core rest else none) with
    | some v =>
      rw [hx] at h
      cases h
      split at hx
      · exact hcore hx
      · exact absurd hx (by simp)
    | none =>
      rw [hx] at h
      simp only [Option.none_orElse] at h
      exact ih h

theorem searchAnchored_allowed {core : List Char → Option Char}
    (hcore : CapturesAllowed core) : CapturesAllowed (searchAnchored core) := by
  intro l c h
  simp only [searchAnchored] at h
  cases hx : core l with
  | some v => rw [hx] at h; cases h; exact hcore hx
  | none =>
    rw [hx] at h
    simp only [Option.none_orElse] at h
    exact searchAfterSpace_allowed hcore h

theorem answerCueAt_allowed : CapturesAllowed answerCueAt := by
  intro l c h
  simp only [answerCueAt] at h
  cases h1 : matchLit "ответ".toList l with
  | some rest => rw [h1] at h; exact matchCore_allowed h
  | none =>
    rw [h1] at h
    cases h2 : matchLit "answer".toList l with
    | some rest => rw [h2] at h; exact matchCore_allowed h
    | none => rw [h2] at h; exact absurd h (by simp)

theorem searchAnswerCue_allowed : CapturesAllowed searchAnswerCue := by
  intro l c h
  induction l with
  | nil => simp [searchAnswerCue] at h
  | cons c' rest ih =>
    simp only [searchAnswerCue] at h
    cases hx : answerCueAt (c' :: rest) with
    | some v => rw [hx] at h; cases h; exact answerCueAt_allowed hx
    | none =>
      rw [hx] at h
      simp only [Option.none_orElse] at h
      exact ih h

theorem theAnswerIsAt_allowed : CapturesAllowed theAnswerIsAt := by
  intro l c h
  simp only [theAnswerIsAt] at h
  cases h1 : matchLit "the answer is".toList l with
  | some rest => rw [h1] at h; exact matchCore_allowed h
  | none => rw [h1] at h; exact absurd h (by simp)

theorem allowed_singleton_mem {c : Char} (h : isAllowedOpt c = true) :
    String.singleton c.toUpper ∈
      (["A", "B", "C", "D", "E", "F", "G", "H", "I", "J"] : List String) := by
  have hm : c.toUpper ∈ "ABCDEFGHIJ".toList := List.mem_of_elem_eq_true h
  have he : "ABCDEFGHIJ".toList
      = ['A', 'B', 'C', 'D', 'E', 'F', 'G', 'H', 'I', 'J'] := rfl
  rw [he] at hm
  simp only [List.mem_cons, List.not_mem_nil, or_false] at hm
  rcases hm with h' | h' | h' | h' | h' | h' | h' | h' | h' | h' <;>
    rw [h'] <;> decide

/-- C10: under the default configuration, `parse` only ever returns the empty
string or a single upper-case letter drawn from the allowed alphabet A–J. -/
theorem C10_mcParse_alphabet (s : String) :
    mcParse s = "" ∨
      mcParse s ∈ (["A", "B", "C", "D", "E", "F", "G", "H", "I", "J"] : List String) := by
  unfold mcParse
  split
  · exact Or.inl rfl
  · cases hx : (searchAnchored matchCore s.toList <|>
        searchAnswerCue s.toList <|>
        searchAnchored theAnswerIsAt s.toList) with
    | none => exact Or.inl rfl
    | some c =>
      right
      have hc : isAllowedOpt c = true := by
        cases h1 : searchAnchored matchCore s.toList with
        | some v =>
          rw [h1] at hx
          cases hx
          exact searchAnchored_allowed capturesAllowed_matchCore h1
        | none =>
          rw [h1, Option.none_orElse] at hx
          cases h2 : searchAnswerCue s.toList with
          | some v =>
            rw [h2] at hx
            cases hx
            exact searchAnswerCue_allowed h2
          | none =>
            rw [h2, Option.none_orElse] at hx
            exact searchAnchored_allowed theAnswerIsAt_allowed hx
      exact allowed_singleton_mem hc

/-! ### The spec's full pattern list (§4.4), modelled from its words

The spec describes seven extraction patterns; the code implements only the
first three.  The spec-side parser below renders the remaining four patterns
from the spec's wording (parenthesized letter anywhere; letter immediately
followed by a period; lone trailing letter; letter after an "option:"-style
cue) so that the claimed contract can be compared against the code. -/

/-- Generic unanchored search: try a pattern body at every start position of
the input, left to right. -/
def searchAnywhere (body : List Char → Option Char) : List Char → Option Char
  | [] => none
  | c :: rest => body (c :: rest) <|> searchAnywhere body rest

/-- Spec §4.4, fourth pattern: a parenthesized allowed letter, anywhere. -/
def parenLetterAt : List Char → Option Char
  | '(' :: c :: ')' :: _ => if isAllowedOpt c then some c else none
  | _ => none

/-- Spec §4.4, fifth pattern: an allowed letter immediately followed by a
period. -/
def letterPeriodAt : List Char → Option Char
  | c :: '.' :: _ => if isAllowedOpt c then some c else none
  | _ => none

/-- Spec §4.4, sixth pattern: a lone trailing allowed letter (the input's
final character). -/
def loneTrailingLetterOf (l : List Char) : Option Char :=
  match l.getLast? with
  | some c => if isAllowedOpt c then some c else none
  | none => none

/-- Spec §4.4, seventh pattern: an allowed letter following an
"option:"-style cue. -/
def optionCueAt (l : List Char) : Option Char :=
  match matchLit "option".toList l with
  | some rest =>
    match skipColonSpace rest with
    | c :: _ => if isAllowedOpt c then some c else none
    | [] => none
  | none => none

/-- The multiple-choice parse contract exactly as the spec words it: all
seven extraction patterns tried in the stated order, first match wins,
restricted to the allowed alphabet, empty string when nothing matches. -/
def specMcParse (response : String) : String :=
  if response = "" then ""
  else
    match searchAnchored matchCore response.toList <|>
          searchAnywhere answerCueAt response.toList <|>
          searchAnchored theAnswerIsAt response.toList <|>
          searchAnywhere parenLetterAt response.toList <|>
          searchAnywhere letterPeriodAt response.toList <|>
          loneTrailingLetterOf response.toList <|>
          searchAnywhere optionCueAt response.toList with
    | some c => String.singleton c.toUpper
    | none => ""

/-- C6 counterexample: on `"x(C)x"` the spec's pattern list (its fourth
pattern: parenthesized letter anywhere) captures `C`, but the code's parser —
which implements only the first three patterns — returns `""`.  The claim as
stated is therefore false on this input. -/
theorem C6_counterexample :
    mcParse "x(C)x" ≠ specMcParse "x(C)x" ∧
      mcParse "x(C)x" = "" ∧ specMcParse "x(C)x" = "C" :=
  ⟨by decide, by decide, by decide⟩

/-- C5: the three input/output pairs the spec gives for the multiple-choice
parser under the case-insensitive default. -/
theorem C5_mcParse_examples :
    mcParse "The answer is (C)." = "C" ∧
      mcParse "no discernible letter here" = "" ∧
      mcParse "b." = "B" :=
  ⟨by decide, by decide, by decide⟩

/-! ### Amended C6: the code's parser, restated the spec's way

The amended contract keeps the spec's structure (an ordered pattern list over
all start positions, first capture wins, empty string otherwise) but with the
three patterns the code actually has.  The spec-side formulation below
enumerates the start positions explicitly (`tails`/`enum`) instead of the
code-side recursions, and is proved equal to `mcParse` pointwise. -/

/-- The `\s`-anchored alternative of a pattern body, at one position. -/
def spaceThen (core : List Char → Option Char) : List Char → Option Char
  | [] => none
  | c :: rest => if isSpaceCh c then core rest else none

/-- One position of a spec-side search: the start-anchored part of a pattern
applies only at position 0, the unanchored part at every position. -/
def posTry (startBody midBody : List Char → Option Char) (p : ℕ × List Char) :
    Option Char :=
  (if p.1 = 0 then startBody p.2 else none) <|> midBody p.2

/-- Spec-side search: try the pattern at every start position of the input,
left to right, returning the first capture. -/
def specSearch (startBody midBody : List Char → Option Char) (l : List Char) :
    Option Char :=
  (l.tails.enum).findSome? (posTry startBody midBody)

theorem findSome?_posTry_enumFrom (startBody midBody : List Char → Option Char)
    (xs : List (List Char)) (n : ℕ) :
    ((xs.enumFrom (n + 1)).findSome? (posTry startBody midBody))
      = xs.findSome? midBody := by
  induction xs generalizing n with
  | nil => rfl
  | cons x xs ih =>
    rw [List.enumFrom, List.findSome?_cons, List.findSome?_cons]
    have hp : posTry startBody midBody (n + 1, x) = midBody x := by
      simp [posTry]
    rw [hp]
    cases h : midBody x with
    | some v => rfl
    | none => exact ih (n + 1)

theorem findSome?_posTry_enum_cons (startBody midBody : List Char → Option Char)
    (x : List Char) (xs : List (List Char)) :
    ((x :: xs).enum).findSome? (posTry startBody midBody)
      = ((startBody x <|> midBody x) <|> xs.findSome? midBody) := by
  show (List.enumFrom 0 (x :: xs)).findSome? (posTry startBody midBody) = _
  rw [List.enumFrom, List.findSome?_cons]
  have hp : posTry startBody midBody (0, x) = (startBody x <|> midBody x) := by
    simp [posTry]
  rw [hp, findSome?_posTry_enumFrom]
  cases h : (startBody x <|> midBody x) with
  | some v => rfl
  | none => rfl

theorem searchAfterSpace_eq_tails (core : List Char → Option Char) (l : List Char) :
    searchAfterSpace core l = l.tails.findSome? (spaceThen core) := by
  induction l with
  | nil => rfl
  | cons c rest ih =>
    simp only [searchAfterSpace, List.tails_cons, List.findSome?_cons]
    have hs : spaceThen core (c :: rest) = if isSpaceCh c then core rest else none := rfl
    rw [hs]
    cases h : (if isSpaceCh c then core rest else none) with
    | some v => rfl
    | none =>
      rw [Option.none_orElse, ih]

theorem searchAnywhere_eq_tails (body : List Char → Option Char)
    (hb : body [] = none) (l : List Char) :
    searchAnywhere body l = l.tails.findSome? body := by
  induction l with
  | nil =>
    show none = List.findSome? body [[]]
    rw [List.findSome?_cons, hb]
    rfl
  | cons c rest ih =>
    simp only [searchAnywhere, List.tails_cons, List.findSome?_cons]
    cases h : body (c :: rest) with
    | some v => rfl
    | none =>
      rw [Option.none_orElse, ih]

theorem specSearch_eq_searchAnchored (core : List Char → Option Char) (l : List Char) :
    specSearch core (spaceThen core) l = searchAnchored core l := by
  cases l with
  | nil =>
    show ((([] : List Char) :: []).enum).findSome? (posTry core (spaceThen core))
        = searchAnchored core []
    rw [findSome?_posTry_enum_cons]
    simp only [searchAnchored, searchAfterSpace]
    cases h : core [] with
    | some v => rfl
    | none => rfl
  | cons c rest =>
    simp only [specSearch, List.tails_cons]
    rw [findSome?_posTry_enum_cons, ← searchAfterSpace_eq_tails]
    have hs : spaceThen core (c :: rest) = if isSpaceCh c then core rest else none := rfl
    simp only [searchAnchored, searchAfterSpace, hs]
    cases h1 : core (c :: rest) with
    | some v => rfl
    | none =>
      cases h2 : (if isSpaceCh c then core rest else none) with
      | some v => rfl
      | none => rfl

theorem specSearch_eq_searchAnywhere (body : List Char → Option Char)
    (hb : body [] = none) (l : List Char) :
    specSearch (fun _ => none) body l = searchAnywhere body l := by
  cases l with
  | nil =>
    show ((([] : List Char) :: []).enum).findSome? (posTry (fun _ => none) body)
        = searchAnywhere body []
    rw [findSome?_posTry_enum_cons]
    show ((none <|> body []) <|> List.findSome? body []) = searchAnywhere body []
    rw [hb]
    rfl
  | cons c rest =>
    simp only [specSearch, List.tails_cons]
    rw [findSome?_posTry_enum_cons, ← searchAnywhere_eq_tails body hb]
    show ((none <|> body (c :: rest)) <|> searchAnywhere body rest)
        = searchAnywhere body (c :: rest)
    simp only [searchAnywhere]
    cases h1 : body (c :: rest) with
    | some v => rfl
    | none => rfl

theorem searchAnswerCue_eq_searchAnywhere (l : List Char) :
    searchAnswerCue l = searchAnywhere answerCueAt l := by
  induction l with
  | nil => rfl
  | cons c rest ih =>
    simp only [searchAnswerCue, searchAnywhere]
    rw [ih]

/-- The amended multiple-choice parse contract: the three patterns the code
implements, tried in order over every start position (first capture wins),
restricted to the allowed alphabet, yielding `""` when nothing matches. -/
def specMcParse3 (response : String) : String :=
  if response = "" then ""
  else
    match specSearch matchCore (spaceThen matchCore) response.toList <|>
          specSearch (fun _ => none) answerCueAt response.toList <|>
          specSearch theAnswerIsAt (spaceThen theAnswerIsAt) response.toList with
    | some c => String.singleton c.toUpper
    | none => ""

/-- C6 (amended): for every input, the code's parser agrees with the ordered
three-pattern contract `specMcParse3` — first matching pattern wins over the
ordered list (bare/bracketed letter after start/whitespace; letter after an
"ответ"/"answer" cue; letter after "the answer is"), restricted to A–J, with
the empty string returned when no pattern matches, never failing. -/
theorem C6_mcParse_eq_threePatternContract (s : String) :
    mcParse s = specMcParse3 s := by
  unfold mcParse specMcParse3
  rw [specSearch_eq_searchAnchored matchCore,
    specSearch_eq_searchAnywhere answerCueAt (by decide),
    specSearch_eq_searchAnchored theAnswerIsAt,
    ← searchAnswerCue_eq_searchAnywhere]

/-! ## Embedding of `src/prompts/prompt_generators.py`

Records keep exactly the keys the generators consume; a key that may be
missing from the parsed JSON object is an `Option`.  Exceptions become
`Except` errors; `StopIteration` is modelled as a successful `none`. -/

/-- The `meta` sub-object of a record, as the generator reads it
(`meta.get("domain", "")`). -/
structure RecMeta where
  domain : Option String
  deriving DecidableEq

/-- One record of a loaded JSONL dataset. -/
structure Record where
  instruction : Option String
  inputs : List (String × String)
  output : Option String
  meta : Option RecMeta
  deriving DecidableEq

/-- Python exceptions raised by the embedded code. -/
inductive PyErr where
  /-- `AttributeError` from calling a method on `None`. -/
  | attributeError
  /-- The `ValueError` raised by `FewShotPromptGenerator.load_data` when
  `len(records) ≤ n_shots` (the spec's name for it: `InsufficientDataError`);
  it carries `len(self.data)` and `n_shots`, which appear in the message. -/
  | insufficientData (got : ℕ) (needed : ℕ)
  deriving DecidableEq

/-- The dict yielded by `PromptGenerator.__next__`. -/
structure GenItem where
  index : ℕ
  prompt : String
  domain : String
  output : String
  deriving DecidableEq

/-- Iterator state of a `PromptGenerator`: loaded records plus cursor.  The
subclass's `generate_prompt` is passed separately as a function `gp`. -/
structure PGState where
  data : List Record
  current_index : ℕ
  deriving DecidableEq

/-- `PromptGenerator.__next__`: raises `StopIteration` (modelled as
`.ok none`) once the cursor reaches the end; otherwise formats the prompt and
builds the item dict.  `item.get("meta")` yields Python `None` when the
record has no `meta` key, and the subsequent `.get("domain", "")` then
raises `AttributeError`. -/
def pgNext (gp : Record → String) (st : PGState) :
    Except PyErr (Option (GenItem × PGState)) :=
  if h : st.current_index < st.data.length then
    let item := st.data.get ⟨st.current_index, h⟩
    match item.meta with
    | none => .error .attributeError
    | some m =>
      .ok (some ({ index := st.current_index, prompt := gp item,
                   domain := m.domain.getD "", output := item.output.getD "" },
                 { st with current_index := st.current_index + 1 }))
  else .ok none

/-- The item `__next__` builds from record `r` at cursor position `i`
(assuming the `meta` lookup succeeded). -/
def recordItem (gp : Record → String) (i : ℕ) (r : Record) : GenItem :=
  { index := i, prompt := gp r,
    domain := (match r.meta with | some m => m.domain.getD "" | none => ""),
    output := r.output.getD "" }

/-- One full pass of the generator loop (`for item in generator` resets the
cursor via `__iter__` and then repeats `__next__` until `StopIteration`),
unrolled structurally over the remaining records, the cursor starting at
`i`. -/
def genItems (gp : Record → String) : ℕ → List Record → Except PyErr (List GenItem)
  | _, [] => .ok []
  | i, r :: rest =>
    match r.meta with
    | none => .error .attributeError
    | some m => do
      let tail ← genItems gp (i + 1) rest
      .ok ({ index := i, prompt := gp r, domain := m.domain.getD "",
             output := r.output.getD "" } :: tail)

/-- `FewShotPromptGenerator.load_data`, after the base-class load has parsed
the file into `records`: raise for `len(records) ≤ n_shots`, else split off
the first `n_shots` records as the fixed exemplar set, keep the remainder as
the iterable data and reset the cursor. -/
def fewShotLoad (n_shots : ℕ) (records : List Record) :
    Except PyErr (List Record × PGState) :=
  if records.length ≤ n_shots then
    .error (.insufficientData records.length n_shots)
  else
    .ok (records.take n_shots,
      { data := records.drop n_shots, current_index := 0 })

/-- `FewShotPromptGenerator._format_example`: the strategy's `process` is the
abstract parameter `proc` (instruction, inputs ↦ formatted prompt). -/
def formatExample (proc : String → List (String × String) → String)
    (item : Record) (include_answer : Bool) : String :=
  let formatted_prompt := proc (item.instruction.getD "") item.inputs
  if include_answer then
    "<client>\n" ++ formatted_prompt ++ "\n<client>\n<model>\n(" ++
      item.output.getD "" ++ ")\n<model>"
  else
    "<client>\n" ++ formatted_prompt ++ "\n<client>\n<model>"

/-- `FewShotPromptGenerator.generate_prompt`: every exemplar formatted with
its answer, then the target item without one, joined by blank lines. -/
def fewShotGeneratePrompt (proc : String → List (String × String) → String)
    (few_shot_examples : List Record) (item : Record) : String :=
  String.intercalate "\n\n"
    ((few_shot_examples.map (fun e => formatExample proc e true)) ++
      [formatExample proc item false])

/-! ### C3: insufficient data on few-shot load -/

/-- C3: for any few-shot generator with `n_shots ≥ 1`, `load_data` fails with
the insufficient-data error exactly when `len(records) ≤ n_shots`, the error
surfacing directly to the caller (an `Except.error`, not a degraded
result). -/
theorem C3_fewShotLoad_insufficientData (n_shots : ℕ) (records : List Record)
    (hmin : 1 ≤ n_shots) :
    records.length ≤ n_shots ↔
      fewShotLoad n_shots records
        = Except.error (PyErr.insufficientData records.length n_shots) := by
  constructor
  · intro h
    simp [fewShotLoad, h]
  · intro h
    by_contra hgt
    simp [fewShotLoad, hgt] at h

/-- A sample well-formed record. -/
def recSample : Record :=
  { instruction := some "Question: {text}", inputs := [("text", "2+2?")],
    output := some "(A)", meta := some { domain := some "math" } }

theorem C3_witness :
    fewShotLoad 3 [recSample, recSample, recSample]
      = Except.error (PyErr.insufficientData 3 3) :=
  (C3_fewShotLoad_insufficientData 3 [recSample, recSample, recSample]
    (by decide)).mp (by decide)

/-! ### C9: domain lookup during `__next__` -/

/-- A record that has no `meta` mapping at all. -/
def recNoMeta : Record :=
  { instruction := some "q", inputs := [], output := some "x", meta := none }

/-- C9 counterexample: on a record with no `meta` mapping the next step does
fail — `item.get("meta")` is Python `None` and `.get("domain", "")` on it
raises `AttributeError` — contradicting the claim that the step never fails
on a record lacking domain metadata. -/
theorem C9_counterexample :
    pgNext (fun _ => "") { data := [recNoMeta], current_index := 0 }
      = Except.error PyErr.attributeError := by
  rfl

/-- C9 (amended): whenever the record under the cursor does carry a `meta`
mapping, the step succeeds and yields an item whose `domain` is
`meta.domain` — the empty string when the `domain` key is absent from
`meta` — and whose `output` is the record's `output` field; only a record
with no `meta` mapping at all makes the step raise. -/
theorem C9_pgNext_domain_output (gp : Record → String) (st : PGState)
    (h : st.current_index < st.data.length) (m : RecMeta)
    (hm : (st.data.get ⟨st.current_index, h⟩).meta = some m) :
    pgNext gp st = Except.ok (some
      ({ index := st.current_index,
         prompt := gp (st.data.get ⟨st.current_index, h⟩),
         domain := m.domain.getD "",
         output := (st.data.get ⟨st.current_index, h⟩).output.getD "" },
       { st with current_index := st.current_index + 1 })) := by
  simp only [pgNext, dif_pos h]
  rw [hm]

/-- A record whose `meta` mapping is present but lacks the `domain` key. -/
def recMetaNoDomain : Record :=
  { instruction := none, inputs := [], output := some "out",
    meta := some { domain := none } }

theorem C9_witness :
    pgNext (fun _ => "p") { data := [recMetaNoDomain], current_index := 0 }
      = Except.ok (some
          ({ index := 0, prompt := "p", domain := "", output := "out" },
           { data := [recMetaNoDomain], current_index := 1 })) :=
  C9_pgNext_domain_output (fun _ => "p")
    { data := [recMetaNoDomain], current_index := 0 }
    (by decide) { domain := none } rfl

/-! ### C4: one full iteration of a loaded few-shot generator -/

theorem genItems_ok (gp : Record → String) (records : List Record)
    (hmeta : ∀ r ∈ records, r.meta ≠ none) (i : ℕ) :
    genItems gp i records
      = Except.ok ((records.enumFrom i).map (fun p => recordItem gp p.1 p.2)) := by
  induction records generalizing i with
  | nil => rfl
  | cons r rest ih =>
    have hr : r.meta ≠ none := hmeta r (by simp)
    cases hm : r.meta with
    | none => exact absurd hm hr
    | some m =>
      simp only [genItems, hm]
      rw [ih (fun x hx => hmeta x (by simp [hx])) (i + 1)]
      simp only [List.enumFrom, List.map_cons]
      have hitem : recordItem gp i r
          = { index := i, prompt := gp r, domain := m.domain.getD "",
              output := r.output.getD "" } := by
        simp [recordItem, hm]
      rw [hitem]
      rfl

/-- C4: after a successful few-shot load of `records` with `n_shots`
exemplars, one full iteration yields exactly `records.length − n_shots`
items; item `i` is generated from record `n_shots + i`, so its
`expected_output` is that record's `output` and its prompt is the exemplar
blocks (answers included, load order) followed by the unanswered target
block, joined by blank lines; and when no exemplar shares an `output` string
with a remaining record, no exemplar's output ever appears as a yielded
item's output. -/
theorem C4_fewShot_iteration (proc : String → List (String × String) → String)
    (n_shots : ℕ) (records : List Record)
    (hlen : n_shots < records.length)
    (hmeta : ∀ r ∈ records.drop n_shots, r.meta ≠ none) :
    ∃ items,
      fewShotLoad n_shots records
        = Except.ok (records.take n_shots,
            { data := records.drop n_shots, current_index := 0 }) ∧
      genItems (fewShotGeneratePrompt proc (records.take n_shots)) 0
          (records.drop n_shots) = Except.ok items ∧
      items.length = records.length - n_shots ∧
      (∀ (i : ℕ) (hi : i < items.length),
        ∃ (hr : n_shots + i < records.length),
          items[i].output = records[n_shots + i].output.getD "" ∧
          items[i].prompt
              = String.intercalate "\n\n"
                  (((records.take n_shots).map (fun e => formatExample proc e true)) ++
                    [formatExample proc records[n_shots + i] false])) ∧
      ((∀ e ∈ records.take n_shots, ∀ d ∈ records.drop n_shots,
          e.output.getD "" ≠ d.output.getD "") →
        ∀ it ∈ items, ∀ e ∈ records.take n_shots, it.output ≠ e.output.getD "") := by
  have hnotle : ¬ records.length ≤ n_shots := by omega
  refine ⟨((records.drop n_shots).enumFrom 0).map
      (fun p => recordItem (fewShotGeneratePrompt proc (records.take n_shots)) p.1 p.2),
    ?_, ?_, ?_, ?_, ?_⟩
  · simp [fewShotLoad, hnotle]
  · exact genItems_ok _ _ hmeta 0
  · simp [List.length_drop]
  · intro i hi
    have hi2 : i < (records.drop n_shots).length := by simpa using hi
    have hr : n_shots + i < records.length := by
      rw [List.length_drop] at hi2
      omega
    refine ⟨hr, ?_, ?_⟩
    · simp only [List.getElem_map, List.getElem_enumFrom]
      rw [List.getElem_drop]
      rfl
    · simp only [List.getElem_map, List.getElem_enumFrom]
      rw [List.getElem_drop]
      rfl
  · intro hdist it hit e he
    rcases List.mem_iff_getElem.mp hit with ⟨i, hilen, heq⟩
    have hout : it.output
        = ((records.drop n_shots).get ⟨i, by simpa using hilen⟩).output.getD "" := by
      rw [← heq]
      simp only [List.getElem_map, List.getElem_enumFrom]
      rfl
    have hmem : ((records.drop n_shots).get ⟨i, by simpa using hilen⟩)
        ∈ records.drop n_shots := List.get_mem _ _ _
    rw [hout]
    exact (hdist e he _ hmem).symm

/-- Five concrete well-formed records with pairwise distinct outputs. -/
def recs5 : List Record :=
  [{ instruction := some "i1", inputs := [], output := some "(A)",
     meta := some { domain := some "d1" } },
   { instruction := some "i2", inputs := [], output := some "(B)",
     meta := some { domain := some "d2" } },
   { instruction := some "i3", inputs := [], output := some "(C)",
     meta := some { domain := some "d3" } },
   { instruction := some "i4", inputs := [], output := some "(D)",
     meta := some { domain := some "d4" } },
   { instruction := some "i5", inputs := [], output := some "(E)",
     meta := some { domain := some "d5" } }]

theorem C4_witness :
    ∃ items,
      fewShotLoad 3 recs5
        = Except.ok (recs5.take 3, { data := recs5.drop 3, current_index := 0 }) ∧
      genItems (fewShotGeneratePrompt (fun ins _ => ins) (recs5.take 3)) 0
          (recs5.drop 3) = Except.ok items ∧
      items.length = recs5.length - 3 ∧
      (∀ (i : ℕ) (hi : i < items.length),
        ∃ (hr : 3 + i < recs5.length),
          items[i].output = recs5[3 + i].output.getD "" ∧
          items[i].prompt
              = String.intercalate "\n\n"
                  (((recs5.take 3).map
                      (fun e => formatExample (fun ins _ => ins) e true)) ++
                    [formatExample (fun ins _ => ins) recs5[3 + i] false])) ∧
      ((∀ e ∈ recs5.take 3, ∀ d ∈ recs5.drop 3,
          e.output.getD "" ≠ d.output.getD "") →
        ∀ it ∈ items, ∀ e ∈ recs5.take 3, it.output ≠ e.output.getD "") :=
  C4_fewShot_iteration (fun ins _ => ins) 3 recs5 (by decide) (by decide)

/-! ## Embedding of `src/client/model_client.py`

HTTP transport is an oracle mapping a prompt to the outcome of the
`requests.post` call for the endpoint being used (`netGen` for
`/api/v1/generate`, `netDet` for `/api/v1/generate-determ`). -/

/-- A JSON object returned by the endpoint, restricted to the keys the
client reads; a missing key is `none`. -/
structure RespJson where
  letter : Option String
  output : Option String
  error : Option String
  deriving DecidableEq

/-- Outcome of one `requests.post` call: a parsed JSON body, or a
transport-level exception (connection failure, non-2xx status raised by
`raise_for_status`, malformed JSON) carrying its message. -/
inductive NetOutcome where
  | ok (json : RespJson)
  | exn (msg : String)
  deriving DecidableEq

/-- `ModelClient.send_request`: a `{letter: ...}` response is normalized to
`{output: letter}`, any other JSON object passes through.  The `except`
block only prints the exception and falls off the end of the function, so a
transport error makes the call return Python `None` — modelled as `none`. -/
def send_request (net : String → NetOutcome) (prompt : String) : Option RespJson :=
  match net prompt with
  | .ok j =>
    if j.letter.isSome then
      some { letter := none, output := j.letter, error := none }
    else some j
  | .exn _ => none

/-- `BatchModelClient._send_determ_request`: same normalization, but its
`except` block returns `{"error": str(e)}`. -/
def send_determ_request (net : String → NetOutcome) (prompt : String) : RespJson :=
  match net prompt with
  | .ok j =>
    if j.letter.isSome then
      { letter := none, output := j.letter, error := none }
    else j
  | .exn msg => { letter := none, output := none, error := some msg }

/-- An element of `current_batch` as built inside `process_dataset`. -/
structure BatchItem where
  index : ℕ
  prompt : String
  domain : String
  expected_output : String
  deriving DecidableEq

/-- A result row built by `_process_batch`. -/
structure ResultRow where
  index : ℕ
  prompt : String
  domain : String
  expected_output : String
  model_output : String
  error : Option String
  deriving DecidableEq

/-- The `BatchModelClient` arguments `process_dataset` consults. -/
structure BatchCfg where
  batch_size : ℕ
  max_tokens : ℕ
  deterministic : Bool
  deriving DecidableEq

/-- The result dict `_process_batch` builds from a batch item and a response
dict (`response.get("output", "")`, `response.get("error", None)`). -/
def rowOf (item : BatchItem) (r : RespJson) : ResultRow :=
  { index := item.index, prompt := item.prompt, domain := item.domain,
    expected_output := item.expected_output,
    model_output := r.output.getD "", error := r.error }

/-- The per-item body of the `_process_batch` loop: pick the endpoint by
`deterministic and max_tokens <= 3`, then read the response dict.  On the
regular path a transport error left `response = None`, so
`response.get("output", "")` raises `AttributeError`. -/
def processItem (cfg : BatchCfg) (netGen netDet : String → NetOutcome)
    (item : BatchItem) : Except PyErr ResultRow :=
  if cfg.deterministic ∧ cfg.max_tokens ≤ 3 then
    .ok (rowOf item (send_determ_request netDet item.prompt))
  else
    match send_request netGen item.prompt with
    | none => .error .attributeError
    | some r => .ok (rowOf item r)

/-- A Python `for` loop appending one result per element, where an exception
thrown mid-loop propagates and discards the local list. -/
def mapExcept {α β : Type} {ε : Type} (f : α → Except ε β) : List α → Except ε (List β)
  | [] => .ok []
  | a :: as =>
    match f a with
    | .error e => .error e
    | .ok b =>
      match mapExcept f as with
      | .error e => .error e
      | .ok bs => .ok (b :: bs)

/-- `BatchModelClient._process_batch`: the items of a batch are processed in
order, each contributing one result row. -/
def processBatch (cfg : BatchCfg) (netGen netDet : String → NetOutcome)
    (batch : List BatchItem) : Except PyErr (List ResultRow) :=
  mapExcept (processItem cfg netGen netDet) batch

/-- The dict `process_dataset` appends to `current_batch` for a generated
item (`item["index"]`, `item["prompt"]`, `item.get("domain", "")`,
`item.get("output", "")`). -/
def toBatchItem (it : GenItem) : BatchItem :=
  { index := it.index, prompt := it.prompt, domain := it.domain,
    expected_output := it.output }

/-- The `process_dataset` loop over the generated items: flush a batch as
soon as `len(current_batch) >= batch_size`, then flush the remaining short
batch (if any) after the loop. -/
def processLoop (cfg : BatchCfg) (netGen netDet : String → NetOutcome) :
    List ResultRow → List BatchItem → List GenItem → Except PyErr (List ResultRow)
  | results, current_batch, [] =>
    if current_batch.isEmpty then .ok results
    else
      match processBatch cfg netGen netDet current_batch with
      | .error e => .error e
      | .ok batch_results => .ok (results ++ batch_results)
  | results, current_batch, it :: rest =>
    let cb := current_batch ++ [toBatchItem it]
    if cfg.batch_size ≤ cb.length then
      match processBatch cfg netGen netDet cb with
      | .error e => .error e
      | .ok batch_results =>
        processLoop cfg netGen netDet (results ++ batch_results) [] rest
    else
      processLoop cfg netGen netDet results cb rest

/-- `BatchModelClient.process_dataset`, applied to the sequence of items the
(freshly reset) generator yields. -/
def process_dataset (cfg : BatchCfg) (netGen netDet : String → NetOutcome)
    (items : List GenItem) : Except PyErr (List ResultRow) :=
  processLoop cfg netGen netDet [] [] items

/-! ### Batching lemmas: chunked processing equals item-by-item processing -/

theorem mapExcept_append {α β ε : Type} (f : α → Except ε β) (l₁ l₂ : List α) :
    mapExcept f (l₁ ++ l₂)
      = match mapExcept f l₁ with
        | .error e => .error e
        | .ok b₁ =>
          match mapExcept f l₂ with
          | .error e => .error e
          | .ok b₂ => .ok (b₁ ++ b₂) := by
  induction l₁ with
  | nil =>
    simp only [List.nil_append, mapExcept]
    cases h : mapExcept f l₂ with
    | error e => rfl
    | ok b₂ => rfl
  | cons a as ih =>
    simp only [List.cons_append, mapExcept, List.append_eq]
    cases hf : f a with
    | error e => rfl
    | ok b =>
      rw [ih]
      cases h1 : mapExcept f as with
      | error e => rfl
      | ok bs =>
        cases h2 : mapExcept f l₂ with
        | error e => rfl
        | ok b₂ => rfl

theorem mapExcept_ok_of_total {α β ε : Type} (f : α → Except ε β) (g : α → β)
    (hf : ∀ a, f a = .ok (g a)) (l : List α) :
    mapExcept f l = .ok (l.map g) := by
  induction l with
  | nil => rfl
  | cons a as ih =>
    simp only [mapExcept, hf a, ih, List.map_cons]

theorem mapExcept_ok_spec {α β ε : Type} (f : α → Except ε β) (l : List α)
    (bs : List β) (h : mapExcept f l = .ok bs) :
    bs.length = l.length ∧
      ∀ (i : ℕ) (hi : i < l.length) (hbi : i < bs.length),
        f (l.get ⟨i, hi⟩) = .ok (bs.get ⟨i, hbi⟩) := by
  induction l generalizing bs with
  | nil =>
    simp only [mapExcept] at h
    cases h
    exact ⟨rfl, fun i hi => absurd hi (by simp)⟩
  | cons a as ih =>
    simp only [mapExcept] at h
    cases hf : f a with
    | error e => rw [hf] at h; exact absurd h (by simp)
    | ok b =>
      rw [hf] at h
      cases h1 : mapExcept f as with
      | error e => rw [h1] at h; exact absurd h (by simp)
      | ok bs' =>
        rw [h1] at h
        cases h
        rcases ih bs' h1 with ⟨hlen, hidx⟩
        refine ⟨by simp [hlen], ?_⟩
        intro i hi hbi
        cases i with
        | zero => simpa using hf
        | succ j =>
          have hj : j < as.length := by simpa using hi
          have hbj : j < bs'.length := by simpa using hbi
          simpa using hidx j hj hbj

theorem processLoop_eq (cfg : BatchCfg) (netGen netDet : String → NetOutcome)
    (rest : List GenItem) :
    ∀ (results : List ResultRow) (cb : List BatchItem),
      processLoop cfg netGen netDet results cb rest
        = match mapExcept (processItem cfg netGen netDet)
              (cb ++ rest.map toBatchItem) with
          | .error e => .error e
          | .ok rows => .ok (results ++ rows) := by
  induction rest with
  | nil =>
    intro results cb
    simp only [processLoop, List.map_nil, List.append_nil, processBatch]
    by_cases hcb : cb.isEmpty
    · have : cb = [] := by simpa [List.isEmpty_iff] using hcb
      subst this
      simp [mapExcept]
    · rw [if_neg hcb]
  | cons it rest ih =>
    intro results cb
    simp only [processLoop, List.map_cons, processBatch]
    have hsplit : cb ++ toBatchItem it :: rest.map toBatchItem
        = (cb ++ [toBatchItem it]) ++ rest.map toBatchItem := by
      simp
    by_cases hflush : cfg.batch_size ≤ (cb ++ [toBatchItem it]).length
    · rw [if_pos hflush, hsplit,
        mapExcept_append (processItem cfg netGen netDet)
          (cb ++ [toBatchItem it]) (rest.map toBatchItem)]
      cases h1 : mapExcept (processItem cfg netGen netDet) (cb ++ [toBatchItem it]) with
      | error e => rfl
      | ok br =>
        simp only [ih (results ++ br) ([] : List BatchItem), List.nil_append]
        cases h2 : mapExcept (processItem cfg netGen netDet) (rest.map toBatchItem) with
        | error e => rfl
        | ok rows => simp [List.append_assoc]
    · rw [if_neg hflush, ih results (cb ++ [toBatchItem it]), hsplit]

/-- Whatever row `processItem` returns carries the item's own index, prompt,
domain and expected output. -/
theorem processItem_ok_fields (cfg : BatchCfg) (netGen netDet : String → NetOutcome)
    (item : BatchItem) (row : ResultRow)
    (h : processItem cfg netGen netDet item = .ok row) :
    row.index = item.index ∧ row.prompt = item.prompt ∧
      row.domain = item.domain ∧ row.expected_output = item.expected_output := by
  unfold processItem at h
  split at h
  · cases h
    exact ⟨rfl, rfl, rfl, rfl⟩
  · cases hs : send_request netGen item.prompt with
    | none => rw [hs] at h; exact absurd h (by simp)
    | some r =>
      rw [hs] at h
      cases h
      exact ⟨rfl, rfl, rfl, rfl⟩

/-- On the deterministic single-letter path, `processItem` is total. -/
theorem processItem_determ_total (cfg : BatchCfg) (netGen netDet : String → NetOutcome)
    (hdet : cfg.deterministic = true ∧ cfg.max_tokens ≤ 3) (item : BatchItem) :
    processItem cfg netGen netDet item
      = .ok (rowOf item (send_determ_request netDet item.prompt)) := by
  unfold processItem
  rw [if_pos hdet]

/-! ### C1: indexing/ordering of `process_dataset` results -/

/-- C1 (amended): for any loaded record sequence (each record carrying a
`meta` mapping), the generator emits items indexed contiguously from 0 in
order; whenever `process_dataset` returns — for any batch size, so across
any batch boundaries including a short final batch — it returns exactly one
row per generated item, the row at position `i` carrying index `i` and that
item's prompt, domain and expected output; and on the deterministic
single-letter path it always returns, transport failures included (they
surface per item as `error` data).  On the regular path a transport failure
instead aborts the whole call (see the C2/C1 counterexample), which is the
one deviation from the original claim. -/
theorem C1_process_dataset_rows (cfg : BatchCfg) (netGen netDet : String → NetOutcome)
    (gp : Record → String) (records : List Record)
    (hmeta : ∀ r ∈ records, r.meta ≠ none) :
    ∃ items,
      genItems gp 0 records = Except.ok items ∧
      items.length = records.length ∧
      (∀ (i : ℕ) (hi : i < items.length), items[i].index = i) ∧
      (∀ rows, process_dataset cfg netGen netDet items = Except.ok rows →
        rows.length = items.length ∧
        ∀ (i : ℕ) (hi : i < items.length) (hri : i < rows.length),
          rows[i].index = i ∧
          rows[i].prompt = items[i].prompt ∧
          rows[i].domain = items[i].domain ∧
          rows[i].expected_output = items[i].output) ∧
      (cfg.deterministic = true ∧ cfg.max_tokens ≤ 3 →
        ∃ rows, process_dataset cfg netGen netDet items = Except.ok rows) := by
  refine ⟨(records.enumFrom 0).map (fun p => recordItem gp p.1 p.2),
    genItems_ok gp records hmeta 0, by simp, ?_, ?_, ?_⟩
  · intro i hi
    simp only [List.getElem_map, List.getElem_enumFrom]
    simp [recordItem]
  · intro rows hrows
    unfold process_dataset at hrows
    rw [processLoop_eq] at hrows
    simp only [List.nil_append] at hrows
    cases hm : mapExcept (processItem cfg netGen netDet)
        (((records.enumFrom 0).map (fun p => recordItem gp p.1 p.2)).map toBatchItem) with
    | error e => rw [hm] at hrows; exact absurd hrows (by simp)
    | ok rows' =>
      rw [hm] at hrows
      cases hrows
      rcases mapExcept_ok_spec _ _ _ hm with ⟨hlen, hidx⟩
      constructor
      · simpa using hlen
      · intro i hi hri
        have hi2 : i < (((records.enumFrom 0).map
            (fun p => recordItem gp p.1 p.2)).map toBatchItem).length := by
          simpa using hi
        have hfields := processItem_ok_fields cfg netGen netDet _ _ (hidx i hi2 hri)
        rcases hfields with ⟨h1, h2, h3, h4⟩
        have hbatch : (((records.enumFrom 0).map
            (fun p => recordItem gp p.1 p.2)).map toBatchItem).get ⟨i, hi2⟩
            = toBatchItem (((records.enumFrom 0).map
                (fun p => recordItem gp p.1 p.2)).get ⟨i, by simpa using hi⟩) := by
          simp
        rw [hbatch] at h1 h2 h3 h4
        refine ⟨?_, ?_, ?_, ?_⟩
        · rw [List.get_eq_getElem] at h1
          rw [h1]
          show (toBatchItem _).index = i
          simp only [toBatchItem, List.getElem_map, List.getElem_enumFrom]
          simp [recordItem]
        · rw [List.get_eq_getElem] at h2
          rw [h2]
          rfl
        · rw [List.get_eq_getElem] at h3
          rw [h3]
          rfl
        · rw [List.get_eq_getElem] at h4
          rw [h4]
          rfl
  · intro hdet
    refine ⟨((((records.enumFrom 0).map (fun p => recordItem gp p.1 p.2)).map
        toBatchItem).map
          (fun item => rowOf item (send_determ_request netDet item.prompt))), ?_⟩
    unfold process_dataset
    rw [processLoop_eq,
      mapExcept_ok_of_total _ _ (processItem_determ_total cfg netGen netDet hdet)]
    rfl

theorem C1_witness :
    ∃ items,
      genItems (fun _ => "P") 0 [recSample] = Except.ok items ∧
      items.length = ([recSample] : List Record).length ∧
      (∀ (i : ℕ) (hi : i < items.length), items[i].index = i) ∧
      (∀ rows,
        process_dataset { batch_size := 2, max_tokens := 3, deterministic := true }
            (fun _ => NetOutcome.exn "down") (fun _ => NetOutcome.exn "down") items
          = Except.ok rows →
        rows.length = items.length ∧
        ∀ (i : ℕ) (hi : i < items.length) (hri : i < rows.length),
          rows[i].index = i ∧
          rows[i].prompt = items[i].prompt ∧
          rows[i].domain = items[i].domain ∧
          rows[i].expected_output = items[i].output) ∧
      (({ batch_size := 2, max_tokens := 3, deterministic := true } : BatchCfg).deterministic
            = true ∧
          ({ batch_size := 2, max_tokens := 3, deterministic := true } : BatchCfg).max_tokens
            ≤ 3 →
        ∃ rows,
          process_dataset { batch_size := 2, max_tokens := 3, deterministic := true }
              (fun _ => NetOutcome.exn "down") (fun _ => NetOutcome.exn "down") items
            = Except.ok rows) :=
  C1_process_dataset_rows { batch_size := 2, max_tokens := 3, deterministic := true }
    (fun _ => NetOutcome.exn "down") (fun _ => NetOutcome.exn "down")
    (fun _ => "P") [recSample] (by decide)

/-- A transport oracle that fails exactly on prompt `"B"`. -/
def netCex : String → NetOutcome := fun p =>
  if p = "B" then NetOutcome.exn "connection refused"
  else NetOutcome.ok { letter := some "A", output := none, error := none }

/-- C1 counterexample: with `batch_size = 1`, `deterministic = True` but
`max_tokens = 512` (the regular request path, the constructor's default
`max_tokens` being 512), a transport failure in the middle batch makes
`process_dataset` raise `AttributeError` — returning no rows at all — rather
than returning one row per generated item with `error` set on the failed
slot, so the claim as stated fails on this input. -/
theorem C1_counterexample :
    process_dataset { batch_size := 1, max_tokens := 512, deterministic := true }
        netCex netCex
        [{ index := 0, prompt := "A", domain := "d", output := "o0" },
         { index := 1, prompt := "B", domain := "d", output := "o1" },
         { index := 2, prompt := "C", domain := "d", output := "o2" }]
      = Except.error PyErr.attributeError := by
  rfl

/-- C2: on the regular request path a transport error makes `send_request`
return Python `None` (its `except` block only prints), so `_process_batch`
raises `AttributeError` at `response.get("output", "")` and the whole run
aborts — the affected items never appear in any result list.  The
deterministic single-letter path shows the intended behaviour the claim
describes: the error is surfaced as per-item data. -/
theorem C2_code_bug_eval :
    send_request (fun _ => NetOutcome.exn "connection refused") "p" = none ∧
    processBatch { batch_size := 10, max_tokens := 512, deterministic := true }
        (fun _ => NetOutcome.exn "connection refused")
        (fun _ => NetOutcome.exn "connection refused")
        [{ index := 0, prompt := "p", domain := "", expected_output := "" }]
      = Except.error PyErr.attributeError ∧
    processItem { batch_size := 10, max_tokens := 3, deterministic := true }
        (fun _ => NetOutcome.exn "boom") (fun _ => NetOutcome.exn "boom")
        { index := 0, prompt := "p", domain := "", expected_output := "" }
      = Except.ok { index := 0, prompt := "p", domain := "", expected_output := "",
                    model_output := "", error := some "boom" } :=
  ⟨rfl, rfl, rfl⟩

/-! ## Embedding of `src/evaluation/metrics.py`

Python floats on this code path are exact quotients of integer counts, so
scores are modelled as `ℚ`.  A metric report is an insertion-ordered dict
(`List (String × RVal)`), and Python dict assignment is `dictAssign` (update
in place if the key exists, append otherwise).  The NLTK/rouge-score library
calls (`word_tokenize`, `sentence_bleu`, `RougeScorer.score`) are external
to the repository and appear as oracle parameters; no claim depends on
their values.  `ExactMatchMetric.calculate` mutates its input records, so
every `calculate` returns the (possibly updated) record list alongside the
report and a composite threads it through. -/

/-- An evaluation record as the metrics read it; a missing key is `none`. -/
structure ERec where
  domain : Option String
  parsed_answer : Option String
  expected_answer : Option String
  is_correct : Option Bool
  deriving DecidableEq

/-- One entry of the per-domain statistics dict. -/
structure DomStat where
  total : ℕ
  correct : ℕ
  accuracy : ℚ
  deriving DecidableEq

/-- A value stored in a metric report. -/
inductive RVal where
  | nat : ℕ → RVal
  | num : ℚ → RVal
  | nums : List ℚ → RVal
  | stats : List (String × DomStat) → RVal
  deriving DecidableEq

/-- Python dict assignment `d[k] = v` on an insertion-ordered dict: replace
in place when the key exists, else append. -/
def dictAssign (d : List (String × RVal)) (k : String) (v : RVal) :
    List (String × RVal) :=
  if d.any (fun p => p.1 = k) then
    d.map (fun p => if p.1 = k then (k, v) else p)
  else d ++ [(k, v)]

/-- `AccuracyMetric.calculate`. -/
def accuracyCalculate (results : List ERec) : List (String × RVal) :=
  if results.isEmpty then
    [("total_examples", .nat 0), ("correct_answers", .nat 0), ("accuracy", .num 0)]
  else
    let total_evaluated := results.length
    let correct_count := (results.filter (fun r => r.is_correct.getD false)).length
    [("total_examples", .nat total_evaluated),
     ("correct_answers", .nat correct_count),
     ("accuracy", .num (if 0 < total_evaluated
        then (correct_count : ℚ) / total_evaluated else 0))]

/-- One record's contribution to `DomainAccuracyMetric`'s grouping dict. -/
def bumpDomain (stats : List (String × DomStat)) (dom : String) (correct : Bool) :
    List (String × DomStat) :=
  if stats.any (fun p => p.1 = dom) then
    stats.map (fun p =>
      if p.1 = dom then
        (p.1, { p.2 with
                total := p.2.total + 1
                correct := p.2.correct + (if correct then 1 else 0) })
      else p)
  else
    stats ++ [(dom, { total := 1, correct := (if correct then 1 else 0),
                      accuracy := 0 })]

/-- `DomainAccuracyMetric.calculate`: group by `domain` (default
`"unknown"`), then fill in each group's accuracy. -/
def domainAccuracyCalculate (results : List ERec) : List (String × RVal) :=
  if results.isEmpty then [("domain_stats", .stats [])]
  else
    let grouped := results.foldl
      (fun acc r => bumpDomain acc (r.domain.getD "unknown")
        (r.is_correct.getD false)) []
    let finalStats := grouped.map (fun p =>
      (p.1, { p.2 with accuracy := if 0 < p.2.total
          then (p.2.correct : ℚ) / p.2.total else 0 }))
    [("domain_stats", .stats finalStats)]

/-- Python `str.lower()` (ASCII range), character by character. -/
def strLower (s : String) : String :=
  String.mk (s.toList.map Char.toLower)

/-- Python's `\w` class (word characters), ASCII range. -/
def isWordCh (c : Char) : Bool :=
  c.isAlphanum || c = '_'

/-- Collapse each maximal whitespace run to a single space
(`re.sub(r"\s+", " ", text)`), by fuel over the input length. -/
def collapseSpacesAux : ℕ → List Char → List Char
  | 0, _ => []
  | _, [] => []
  | fuel + 1, c :: rest =>
    if isSpaceCh c then ' ' :: collapseSpacesAux fuel (rest.dropWhile isSpaceCh)
    else c :: collapseSpacesAux fuel rest

/-- Python `str.strip()`: drop leading and trailing whitespace. -/
def stripChars (l : List Char) : List Char :=
  ((l.dropWhile isSpaceCh).reverse.dropWhile isSpaceCh).reverse

/-- `ExactMatchMetric._normalize_text`: optional case-fold, then optional
punctuation strip (keep `\w` and `\s`), whitespace collapse and trim. -/
def pyNormalizeText (case_sensitive normalize : Bool) (text : String) : String :=
  let t1 := if !case_sensitive then strLower text else text
  if normalize then
    let t2 := t1.toList.filter (fun c => isWordCh c || isSpaceCh c)
    String.mk (stripChars (collapseSpacesAux t2.length t2))
  else t1

/-- The per-record comparison of `ExactMatchMetric.calculate`: normalize
both answers when `normalize` is set, else lower-case both when
case-insensitive, else compare as-is. -/
def exactMatchIsCorrect (case_sensitive normalize : Bool) (r : ERec) : Bool :=
  let parsed_answer := r.parsed_answer.getD ""
  let expected_answer := r.expected_answer.getD ""
  if normalize then
    pyNormalizeText case_sensitive normalize parsed_answer
      == pyNormalizeText case_sensitive normalize expected_answer
  else if !case_sensitive then
    strLower parsed_answer == strLower expected_answer
  else
    parsed_answer == expected_answer

/-- `ExactMatchMetric.calculate`: computes `is_correct` per record, sets it
on the record (mutation, surfaced as the returned record list), and reports
the same three keys as accuracy.  Note there is no empty-input early return;
the guarded division yields 0.0 for an empty list. -/
def exactMatchCalculate (case_sensitive normalize : Bool) (results : List ERec) :
    (List (String × RVal)) × List ERec :=
  let updated := results.map (fun r =>
    { r with is_correct := some (exactMatchIsCorrect case_sensitive normalize r) })
  let total_evaluated := results.length
  let correct_count :=
    (results.filter (fun r => exactMatchIsCorrect case_sensitive normalize r)).length
  ([("total_examples", .nat total_evaluated),
    ("correct_answers", .nat correct_count),
    ("accuracy", .num (if 0 < total_evaluated
        then (correct_count : ℚ) / total_evaluated else 0))],
   updated)

/-- The classification of one record by `F1ScoreMetric.calculate`
(`expected` is always `pos_label` there): (tp, fp, fn, tn) increments. -/
def f1Bucket (pos_label prediction : Bool) : ℕ × ℕ × ℕ × ℕ :=
  let expected := pos_label
  if prediction == expected && expected == pos_label then (1, 0, 0, 0)
  else if prediction == pos_label && expected != pos_label then (0, 1, 0, 0)
  else if prediction != pos_label && expected == pos_label then (0, 0, 1, 0)
  else (0, 0, 0, 1)

/-- `F1ScoreMetric.calculate`. -/
def f1Calculate (pos_label : Bool) (results : List ERec) : List (String × RVal) :=
  if results.isEmpty then
    [("precision", .num 0), ("recall", .num 0), ("f1_score", .num 0),
     ("true_positives", .nat 0), ("false_positives", .nat 0),
     ("false_negatives", .nat 0), ("true_negatives", .nat 0),
     ("total_examples", .nat 0)]
  else
    let counts := results.foldl
      (fun acc r =>
        let b := f1Bucket pos_label (r.is_correct.getD false)
        (acc.1 + b.1, acc.2.1 + b.2.1, acc.2.2.1 + b.2.2.1, acc.2.2.2 + b.2.2.2))
      ((0, 0, 0, 0) : ℕ × ℕ × ℕ × ℕ)
    let tp := counts.1
    let fp := counts.2.1
    let fn := counts.2.2.1
    let tn := counts.2.2.2
    let precisionV : ℚ := if 0 < tp + fp then (tp : ℚ) / (tp + fp) else 0
    let recallV : ℚ := if 0 < tp + fn then (tp : ℚ) / (tp + fn) else 0
    let f1 : ℚ := if 0 < precisionV + recallV
      then 2 * (precisionV * recallV) / (precisionV + recallV) else 0
    [("precision", .num precisionV), ("recall", .num recallV), ("f1_score", .num f1),
     ("true_positives", .nat tp), ("false_positives", .nat fp),
     ("false_negatives", .nat fn), ("true_negatives", .nat tn),
     ("total_examples", .nat results.length)]

/-- `BLEUMetric.calculate`: `tok` stands for the NLTK word tokenizer
(applied to the lower-cased text) and `sb` for smoothed `sentence_bleu`. -/
def bleuCalculate (tok : String → List String)
    (sb : List (List String) → List String → ℚ) (results : List ERec) :
    List (String × RVal) :=
  if results.isEmpty then
    [("bleu_score", .num 0), ("total_examples", .nat 0)]
  else
    let bleu_scores := results.map (fun r =>
      let reference_tokens := tok (strLower (r.expected_answer.getD ""))
      let hypothesis_tokens := tok (strLower (r.parsed_answer.getD ""))
      if reference_tokens.length = 0 ∨ hypothesis_tokens.length = 0 then (0 : ℚ)
      else sb [reference_tokens] hypothesis_tokens)
    let total_score := bleu_scores.sum
    [("bleu_score", .num (total_score / results.length)),
     ("individual_scores", .nums bleu_scores),
     ("total_examples", .nat results.length)]

/-- The default `rouge_types`. -/
def rougeTypes : List String := ["rouge1", "rouge2", "rougeL"]

/-- `ROUGEMetric.calculate` with the default variants: `scorer ref hyp t`
stands for `RougeScorer.score(ref, hyp)[t]` as (precision, recall, f1);
items with an empty side are skipped. -/
def rougeCalculate (scorer : String → String → String → ℚ × ℚ × ℚ)
    (results : List ERec) : List (String × RVal) :=
  if results.isEmpty then
    (rougeTypes.map (fun t =>
      [(t ++ "_precision", RVal.num 0), (t ++ "_recall", RVal.num 0),
       (t ++ "_f1", RVal.num 0)])).join
      ++ [("total_examples", RVal.nat 0)]
  else
    let pairs := results.filterMap (fun r =>
      let reference := r.expected_answer.getD ""
      let hypothesis := r.parsed_answer.getD ""
      if reference = "" ∨ hypothesis = "" then none
      else some (reference, hypothesis))
    (rougeTypes.map (fun t =>
      let ps := pairs.map (fun rh => (scorer rh.1 rh.2 t).1)
      let rcs := pairs.map (fun rh => (scorer rh.1 rh.2 t).2.1)
      let fs := pairs.map (fun rh => (scorer rh.1 rh.2 t).2.2)
      [(t ++ "_precision",
        RVal.num (if ps.isEmpty then 0 else ps.sum / ps.length)),
       (t ++ "_recall",
        RVal.num (if rcs.isEmpty then 0 else rcs.sum / rcs.length)),
       (t ++ "_f1",
        RVal.num (if fs.isEmpty then 0 else fs.sum / fs.length))])).join
      ++ [("total_examples", RVal.nat results.length)]

/-- The leaf metric classes of the repository. -/
inductive MClass where
  | accuracy
  | domainAccuracy
  | exactMatch
  | f1Score
  | bleu
  | rouge
  deriving DecidableEq, Fintype

/-- A constructed metric instance (class plus constructor arguments the
report shape can depend on do not exist; only exact-match and F1 carry
flags). -/
inductive MetricVariant where
  | accuracy
  | domainAccuracy
  | exactMatch (case_sensitive : Bool) (normalize : Bool)
  | f1Score (pos_label : Bool)
  | bleu
  | rouge
  deriving DecidableEq

def classOf : MetricVariant → MClass
  | .accuracy => .accuracy
  | .domainAccuracy => .domainAccuracy
  | .exactMatch _ _ => .exactMatch
  | .f1Score _ => .f1Score
  | .bleu => .bleu
  | .rouge => .rouge

/-- `metric.__class__.__name__` for each class. -/
def classNameStr : MClass → String
  | .accuracy => "AccuracyMetric"
  | .domainAccuracy => "DomainAccuracyMetric"
  | .exactMatch => "ExactMatchMetric"
  | .f1Score => "F1ScoreMetric"
  | .bleu => "BLEUMetric"
  | .rouge => "ROUGEMetric"

/-- Python `str.replace`: replace every (leftmost, non-overlapping)
occurrence of the pattern. -/
def replaceAllAux : ℕ → List Char → List Char → List Char → List Char
  | 0, l, _, _ => l
  | fuel + 1, l, pat, rep =>
    match l with
    | [] => []
    | c :: rest =>
      if pat.isPrefixOf l then rep ++ replaceAllAux fuel (l.drop pat.length) pat rep
      else c :: replaceAllAux fuel rest pat rep

def pyReplace (s pat rep : String) : String :=
  String.mk (replaceAllAux s.length s.toList pat.toList rep.toList)

/-- `CompositeMetric._get_metric_name`:
`metric.__class__.__name__.replace("Metric", "").lower()`. -/
def getMetricName (m : MetricVariant) : String :=
  strLower (pyReplace (classNameStr (classOf m)) "Metric" "")

/-- The spec's wording of the default name: the class name with the fixed
`"Metric"` suffix stripped, lower-cased. -/
def specStripName (s : String) : String :=
  let l := s.toList
  let suf := "Metric".toList
  strLower (String.mk (if suf.isSuffixOf l then l.take (l.length - suf.length) else l))

/-- The external-library oracles a metric set may need. -/
structure MetricOracles where
  tok : String → List String
  sb : List (List String) → List String → ℚ
  rougeScore : String → String → String → ℚ × ℚ × ℚ

/-- Dispatch `metric.calculate(results)`, returning the report and the
records as the metric leaves them (only exact-match updates them). -/
def metricCalculate (orc : MetricOracles) :
    MetricVariant → List ERec → (List (String × RVal)) × List ERec
  | .accuracy, rs => (accuracyCalculate rs, rs)
  | .domainAccuracy, rs => (domainAccuracyCalculate rs, rs)
  | .exactMatch cs nm, rs => exactMatchCalculate cs nm rs
  | .f1Score pl, rs => (f1Calculate pl rs, rs)
  | .bleu, rs => (bleuCalculate orc.tok orc.sb rs, rs)
  | .rouge, rs => (rougeCalculate orc.rougeScore rs, rs)

/-- The `CompositeMetric.calculate` loop: each constituent's report keys are
written into `combined_results` with prefix `""` for the first metric and
`"<name>_"` for every later one, by Python dict assignment; the (possibly
mutated) record list is what the next constituent sees. -/
def compositeGo (orc : MetricOracles) :
    ℕ → List (String × RVal) → List ERec → List (MetricVariant × String) →
      List (String × RVal)
  | _, combined, _, [] => combined
  | i, combined, rs, (m, name) :: rest =>
    let mr := metricCalculate orc m rs
    let pre := if i = 0 then "" else name ++ "_"
    let combined := mr.1.foldl (fun acc kv => dictAssign acc (pre ++ kv.1) kv.2) combined
    compositeGo orc (i + 1) combined mr.2 rest

/-- `CompositeMetric.calculate` (the constructor's length check is assumed
to have passed: `ms` and `names` are parallel lists). -/
def compositeCalculate (orc : MetricOracles) (ms : List MetricVariant)
    (names : List String) (results : List ERec) : List (String × RVal) :=
  compositeGo orc 0 [] results (ms.zip names)

/-! ### C7: composite report shape -/

/-- The report keys each metric class can emit, in emission order. -/
def classKeys : MClass → List String
  | .accuracy => ["total_examples", "correct_answers", "accuracy"]
  | .domainAccuracy => ["domain_stats"]
  | .exactMatch => ["total_examples", "correct_answers", "accuracy"]
  | .f1Score => ["precision", "recall", "f1_score", "true_positives",
      "false_positives", "false_negatives", "true_negatives", "total_examples"]
  | .bleu => ["bleu_score", "individual_scores", "total_examples"]
  | .rouge => ["rouge1_precision", "rouge1_recall", "rouge1_f1",
      "rouge2_precision", "rouge2_recall", "rouge2_f1",
      "rougeL_precision", "rougeL_recall", "rougeL_f1", "total_examples"]

/-- The default name of a metric class. -/
def nameOfC (c : MClass) : String :=
  strLower (pyReplace (classNameStr c) "Metric" "")

/-- A class's keys under its own `"<name>_"` prefix. -/
def prefixedKeys (c : MClass) : List String :=
  (classKeys c).map (fun k => nameOfC c ++ "_" ++ k)

theorem getMetricName_eq_nameOfC (m : MetricVariant) :
    getMetricName m = nameOfC (classOf m) := rfl

theorem nameOfC_spec : ∀ c : MClass, nameOfC c = specStripName (classNameStr c) := by
  decide

theorem nameOfC_values :
    (MClass.accuracy :: MClass.domainAccuracy :: MClass.exactMatch ::
        MClass.f1Score :: MClass.bleu :: [MClass.rouge]).map nameOfC
      = ["accuracy", "domainaccuracy", "exactmatch", "f1score", "bleu", "rouge"] := by
  decide

theorem classKeys_nodup : ∀ c : MClass, (classKeys c).Nodup := by
  decide

theorem prefixedKeys_nodup : ∀ c : MClass, (prefixedKeys c).Nodup := by
  decide

theorem plain_disjoint_prefixed :
    ∀ c c' : MClass, c ≠ c' → ∀ k ∈ classKeys c, k ∉ prefixedKeys c' := by
  decide

theorem prefixed_disjoint_prefixed :
    ∀ c c' : MClass, c ≠ c' → ∀ k ∈ prefixedKeys c, k ∉ prefixedKeys c' := by
  decide

theorem nameOfC_inj : ∀ c c' : MClass, nameOfC c = nameOfC c' → c = c' := by
  decide

theorem accuracy_keys (rs : List ERec) :
    (accuracyCalculate rs).map Prod.fst = classKeys .accuracy := by
  unfold accuracyCalculate
  split <;> rfl

theorem domainAccuracy_keys (rs : List ERec) :
    (domainAccuracyCalculate rs).map Prod.fst = classKeys .domainAccuracy := by
  unfold domainAccuracyCalculate
  split <;> rfl

theorem exactMatch_keys (cs nm : Bool) (rs : List ERec) :
    ((exactMatchCalculate cs nm rs).1).map Prod.fst = classKeys .exactMatch := rfl

theorem f1_keys (pl : Bool) (rs : List ERec) :
    (f1Calculate pl rs).map Prod.fst = classKeys .f1Score := by
  unfold f1Calculate
  split <;> rfl

theorem bleu_keys_sublist (tok : String → List String)
    (sb : List (List String) → List String → ℚ) (rs : List ERec) :
    List.Sublist ((bleuCalculate tok sb rs).map Prod.fst) (classKeys .bleu) := by
  unfold bleuCalculate
  split
  · show List.Sublist ["bleu_score", "total_examples"] _
    exact List.Sublist.cons₂ _ (List.Sublist.cons _ (List.Sublist.refl _))
  · exact List.Sublist.refl _

theorem rouge_keys (scorer : String → String → String → ℚ × ℚ × ℚ)
    (rs : List ERec) :
    (rougeCalculate scorer rs).map Prod.fst = classKeys .rouge := by
  unfold rougeCalculate
  split <;> rfl

/-- Every report's key list is a sublist of its class's key list (and equals
it except for BLEU on an empty input, which omits `individual_scores`). -/
theorem metric_keys_sublist (orc : MetricOracles) (m : MetricVariant)
    (rs : List ERec) :
    List.Sublist ((metricCalculate orc m rs).1.map Prod.fst)
      (classKeys (classOf m)) := by
  cases m with
  | accuracy =>
    rw [show (metricCalculate orc .accuracy rs).1 = accuracyCalculate rs from rfl,
      accuracy_keys]
    exact List.Sublist.refl _
  | domainAccuracy =>
    rw [show (metricCalculate orc .domainAccuracy rs).1
        = domainAccuracyCalculate rs from rfl, domainAccuracy_keys]
    exact List.Sublist.refl _
  | exactMatch cs nm =>
    rw [show (metricCalculate orc (.exactMatch cs nm) rs).1
        = (exactMatchCalculate cs nm rs).1 from rfl, exactMatch_keys]
    exact List.Sublist.refl _
  | f1Score pl =>
    rw [show (metricCalculate orc (.f1Score pl) rs).1
        = f1Calculate pl rs from rfl, f1_keys]
    exact List.Sublist.refl _
  | bleu => exact bleu_keys_sublist orc.tok orc.sb rs
  | rouge =>
    rw [show (metricCalculate orc .rouge rs).1
        = rougeCalculate orc.rougeScore rs from rfl, rouge_keys]
    exact List.Sublist.refl _

theorem metric_keys_subset (orc : MetricOracles) (m : MetricVariant)
    (rs : List ERec) {k : String}
    (hk : k ∈ (metricCalculate orc m rs).1.map Prod.fst) :
    k ∈ classKeys (classOf m) :=
  (metric_keys_sublist orc m rs).subset hk

/-- A report with the `"<name>_"` prefix applied to every key. -/
def prefixedReport (pre : String) (rep : List (String × RVal)) :
    List (String × RVal) :=
  rep.map (fun kv => (pre ++ kv.1, kv.2))

/-- The spec's merged shape for the non-first constituents: each report,
keys prefixed with the constituent's name, concatenated in order, the
record list threaded through. -/
def compositeSpecTail (orc : MetricOracles) :
    List (MetricVariant × String) → List ERec → List (String × RVal)
  | [], _ => []
  | (m, name) :: rest, rs =>
    prefixedReport (name ++ "_") (metricCalculate orc m rs).1
      ++ compositeSpecTail orc rest (metricCalculate orc m rs).2

/-- The spec's merged composite report: the first constituent's report
unprefixed, every later constituent's report under its `"<name>_"` prefix,
plainly concatenated (no overwrites). -/
def compositeSpecMerge (orc : MetricOracles) (ms : List MetricVariant)
    (names : List String) (rs : List ERec) : List (String × RVal) :=
  match ms.zip names with
  | [] => []
  | (m, _) :: rest =>
    (metricCalculate orc m rs).1
      ++ compositeSpecTail orc rest (metricCalculate orc m rs).2

theorem dictAssign_fresh (d : List (String × RVal)) (k : String) (v : RVal)
    (h : ∀ p ∈ d, p.1 ≠ k) : dictAssign d k v = d ++ [(k, v)] := by
  unfold dictAssign
  rw [if_neg]
  intro hc
  rcases List.any_eq_true.mp hc with ⟨p, hp, hpk⟩
  exact h p hp (by simpa using hpk)

theorem foldl_assign_fresh (pre : String) (rep : List (String × RVal)) :
    ∀ d : List (String × RVal),
    (∀ kv ∈ rep, ∀ p ∈ d, p.1 ≠ pre ++ kv.1) →
    ((rep.map (fun kv => pre ++ kv.1)).Nodup) →
    rep.foldl (fun acc kv => dictAssign acc (pre ++ kv.1) kv.2) d
      = d ++ prefixedReport pre rep := by
  induction rep with
  | nil => intro d _ _; simp [prefixedReport]
  | cons kv rep ih =>
    intro d hfresh hnd
    simp only [List.foldl_cons]
    rw [dictAssign_fresh _ _ _ (hfresh kv (by simp))]
    rw [ih (d ++ [(pre ++ kv.1, kv.2)]) ?_ (by
      simpa using (List.nodup_cons.mp (by simpa using hnd)).2)]
    · simp [prefixedReport]
    · intro kv' hkv' p hp
      rcases List.mem_append.mp hp with hpd | hpx
      · exact hfresh kv' (by simp [hkv']) p hpd
      · have hpe : p = (pre ++ kv.1, kv.2) := by simpa using hpx
        subst hpe
        intro heq
        have heq2 : pre ++ kv.1 = pre ++ kv'.1 := heq
        have h1 : pre ++ kv'.1 ∈ rep.map (fun kv => pre ++ kv.1) :=
          List.mem_map_of_mem _ hkv'
        have h2 : pre ++ kv.1 ∉ rep.map (fun kv => pre ++ kv.1) :=
          (List.nodup_cons.mp (by simpa using hnd)).1
        rw [heq2] at h2
        exact h2 h1

theorem prefixedReport_keys (pre : String) (rep : List (String × RVal)) :
    (prefixedReport pre rep).map Prod.fst
      = (rep.map Prod.fst).map (fun k => pre ++ k) := by
  unfold prefixedReport
  rw [List.map_map, List.map_map]
  rfl

theorem prefixedReport_keys_sublist (orc : MetricOracles) (m : MetricVariant)
    (rs : List ERec) :
    List.Sublist
      ((prefixedReport (getMetricName m ++ "_") (metricCalculate orc m rs).1).map
        Prod.fst)
      (prefixedKeys (classOf m)) := by
  rw [prefixedReport_keys, getMetricName_eq_nameOfC]
  unfold prefixedKeys
  exact List.Sublist.map (fun k => nameOfC (classOf m) ++ "_" ++ k)
    (metric_keys_sublist orc m rs)

theorem compositeSpecTail_keys (orc : MetricOracles) :
    ∀ (pairs : List (MetricVariant × String)),
      (∀ pr ∈ pairs, pr.2 = getMetricName pr.1) →
      ((pairs.map (fun pr => classOf pr.1)).Nodup) →
      ∀ rs : List ERec,
        (∀ k ∈ (compositeSpecTail orc pairs rs).map Prod.fst,
          ∃ pr ∈ pairs, k ∈ prefixedKeys (classOf pr.1)) ∧
        ((compositeSpecTail orc pairs rs).map Prod.fst).Nodup := by
  intro pairs
  induction pairs with
  | nil =>
    intro _ _ rs
    exact ⟨by simp [compositeSpecTail], by simp [compositeSpecTail]⟩
  | cons pr rest ih =>
    obtain ⟨m, name⟩ := pr
    intro hnames hcls rs
    have hname : name = getMetricName m := hnames (m, name) (by simp)
    have hclsTail : (rest.map (fun pr => classOf pr.1)).Nodup := by
      have h := hcls
      simp only [List.map_cons, List.nodup_cons] at h
      exact h.2
    have hheadNotin : classOf m ∉ rest.map (fun pr => classOf pr.1) := by
      have h := hcls
      simp only [List.map_cons, List.nodup_cons] at h
      exact h.1
    have hnamesTail : ∀ pr ∈ rest, pr.2 = getMetricName pr.1 :=
      fun pr hpr => hnames pr (by simp [hpr])
    rcases ih hnamesTail hclsTail (metricCalculate orc m rs).2 with ⟨ihmem, ihnd⟩
    have hheadsub : List.Sublist
        ((prefixedReport (name ++ "_") (metricCalculate orc m rs).1).map Prod.fst)
        (prefixedKeys (classOf m)) := by
      rw [hname]
      exact prefixedReport_keys_sublist orc m rs
    constructor
    · intro k hk
      simp only [compositeSpecTail, List.map_append, List.mem_append] at hk
      rcases hk with hk1 | hk2
      · exact ⟨(m, name), by simp, hheadsub.subset hk1⟩
      · rcases ihmem k hk2 with ⟨pr, hpr, hkpr⟩
        exact ⟨pr, by simp [hpr], hkpr⟩
    · simp only [compositeSpecTail, List.map_append]
      rw [List.nodup_append]
      refine ⟨(prefixedKeys_nodup (classOf m)).sublist hheadsub, ihnd, ?_⟩
      intro k hk1 hk2
      rcases ihmem k hk2 with ⟨pr, hpr, hkpr⟩
      have hne : classOf m ≠ classOf pr.1 := by
        intro hcc
        exact hheadNotin (hcc ▸ List.mem_map_of_mem (fun pr => classOf pr.1) hpr)
      exact prefixed_disjoint_prefixed (classOf m) (classOf pr.1) hne k
        (hheadsub.subset hk1) hkpr

theorem compositeGo_tail (orc : MetricOracles) :
    ∀ (pairs : List (MetricVariant × String)),
      (∀ pr ∈ pairs, pr.2 = getMetricName pr.1) →
      ((pairs.map (fun pr => classOf pr.1)).Nodup) →
      ∀ (j : ℕ) (d : List (String × RVal)) (rs : List ERec),
        (∀ pr ∈ pairs, ∀ p ∈ d, p.1 ∉ prefixedKeys (classOf pr.1)) →
        compositeGo orc (j + 1) d rs pairs = d ++ compositeSpecTail orc pairs rs := by
  intro pairs
  induction pairs with
  | nil =>
    intro _ _ j d rs _
    simp [compositeGo, compositeSpecTail]
  | cons pr rest ih =>
    obtain ⟨m, name⟩ := pr
    intro hnames hcls j d rs hfresh
    have hname : name = getMetricName m := hnames (m, name) (by simp)
    have hclsTail : (rest.map (fun pr => classOf pr.1)).Nodup := by
      have h := hcls
      simp only [List.map_cons, List.nodup_cons] at h
      exact h.2
    have hheadNotin : classOf m ∉ rest.map (fun pr => classOf pr.1) := by
      have h := hcls
      simp only [List.map_cons, List.nodup_cons] at h
      exact h.1
    have hnamesTail : ∀ pr ∈ rest, pr.2 = getMetricName pr.1 :=
      fun pr hpr => hnames pr (by simp [hpr])
    simp only [compositeGo]
    rw [if_neg (by omega : ¬(j + 1 = 0))]
    have hN : (((metricCalculate orc m rs).1.map
        (fun kv => (name ++ "_") ++ kv.1)).Nodup) := by
      have hmm : (metricCalculate orc m rs).1.map (fun kv => (name ++ "_") ++ kv.1)
          = (prefixedReport (name ++ "_") (metricCalculate orc m rs).1).map Prod.fst := by
        rw [prefixedReport_keys, List.map_map]
        rfl
      rw [hmm, hname]
      exact (prefixedKeys_nodup (classOf m)).sublist (prefixedReport_keys_sublist orc m rs)
    have hF : ∀ kv ∈ (metricCalculate orc m rs).1, ∀ p ∈ d,
        p.1 ≠ (name ++ "_") ++ kv.1 := by
      intro kv hkv p hp heq
      have hk : kv.1 ∈ classKeys (classOf m) :=
        metric_keys_subset orc m rs (List.mem_map_of_mem Prod.fst hkv)
      have hpk : p.1 ∈ prefixedKeys (classOf m) := by
        rw [heq, hname, getMetricName_eq_nameOfC]
        exact List.mem_map_of_mem (fun k => nameOfC (classOf m) ++ "_" ++ k) hk
      exact hfresh (m, name) (by simp) p hp hpk
    rw [foldl_assign_fresh (name ++ "_") (metricCalculate orc m rs).1 d hF hN]
    rw [ih hnamesTail hclsTail (j + 1)
      (d ++ prefixedReport (name ++ "_") (metricCalculate orc m rs).1)
      (metricCalculate orc m rs).2 ?_]
    · simp only [compositeSpecTail]
      rw [List.append_assoc]
    · intro pr hpr p hp
      rcases List.mem_append.mp hp with hpd | hpp
      · exact hfresh pr (by simp [hpr]) p hpd
      · have hpk : p.1 ∈ prefixedKeys (classOf m) := by
          have : p.1 ∈ (prefixedReport (name ++ "_")
              (metricCalculate orc m rs).1).map Prod.fst :=
            List.mem_map_of_mem Prod.fst hpp
          have hsub := prefixedReport_keys_sublist orc m rs
          rw [hname] at this
          exact hsub.subset this
        have hne : classOf m ≠ classOf pr.1 := by
          intro hcc
          exact hheadNotin (hcc ▸ List.mem_map_of_mem (fun pr => classOf pr.1) hpr)
        exact prefixed_disjoint_prefixed (classOf m) (classOf pr.1) hne p.1 hpk

theorem prefixedReport_empty (rep : List (String × RVal)) :
    prefixedReport "" rep = rep := by
  induction rep with
  | nil => rfl
  | cons kv t iht =>
    show ("" ++ kv.1, kv.2) :: prefixedReport "" t = kv :: t
    rw [iht]
    rfl

theorem zip_map_self {α β : Type} (f : α → β) :
    ∀ l : List α, l.zip (l.map f) = l.map (fun a => (a, f a)) := by
  intro l
  induction l with
  | nil => rfl
  | cons a t iht => simp only [List.map_cons, List.zip_cons_cons, iht]

/-- C7 (amended): for every composite run over the repository's metrics
under their default (auto-derived) names, when those names are pairwise
distinct: (1) every metric's default name is its class name with the fixed
`"Metric"` suffix stripped and lower-cased; (2) the merged report is exactly
the first constituent's report unprefixed followed by each later
constituent's report under its `"<name>_"` prefix, plainly concatenated —
no dict assignment ever overwrites an existing key; (3) the merged report's
keys are pairwise distinct.  (With caller-supplied names a collision is
possible — see the counterexample.) -/
theorem C7_composite_default_names (orc : MetricOracles) (ms : List MetricVariant)
    (rs : List ERec) (hnd : (ms.map getMetricName).Nodup) :
    (∀ m : MetricVariant, getMetricName m = specStripName (classNameStr (classOf m))) ∧
    compositeCalculate orc ms (ms.map getMetricName) rs
      = compositeSpecMerge orc ms (ms.map getMetricName) rs ∧
    ((compositeSpecMerge orc ms (ms.map getMetricName) rs).map Prod.fst).Nodup := by
  have hclsms : (ms.map classOf).Nodup := by
    have h1 : (ms.map classOf).map nameOfC = ms.map getMetricName := by
      rw [List.map_map]
      rfl
    rw [← h1] at hnd
    exact List.Nodup.of_map nameOfC hnd
  refine ⟨fun m => by rw [getMetricName_eq_nameOfC, nameOfC_spec], ?_, ?_⟩
  · cases ms with
    | nil => rfl
    | cons m rest =>
      unfold compositeCalculate compositeSpecMerge
      rw [zip_map_self getMetricName (m :: rest), List.map_cons]
      have hnamesTail : ∀ pr ∈ rest.map (fun a => (a, getMetricName a)),
          pr.2 = getMetricName pr.1 := by
        intro pr hpr
        rcases List.mem_map.mp hpr with ⟨a, _, hae⟩
        rw [← hae]
      have hclsTail : ((rest.map (fun a => (a, getMetricName a))).map
          (fun pr => classOf pr.1)).Nodup := by
        rw [List.map_map]
        have h := hclsms
        simp only [List.map_cons, List.nodup_cons] at h
        exact h.2
      have hheadNotin : classOf m ∉ rest.map classOf := by
        have h := hclsms
        simp only [List.map_cons, List.nodup_cons] at h
        exact h.1
      simp only [compositeGo]
      rw [if_pos trivial]
      have hfun : (fun kv : String × RVal => "" ++ kv.1)
          = (Prod.fst : String × RVal → String) := funext fun kv => rfl
      have hN0 : (((metricCalculate orc m rs).1.map
          (fun kv => "" ++ kv.1)).Nodup) := by
        rw [hfun]
        exact (classKeys_nodup (classOf m)).sublist (metric_keys_sublist orc m rs)
      rw [foldl_assign_fresh "" (metricCalculate orc m rs).1 []
        (by intro kv _ p hp; exact absurd hp (List.not_mem_nil p)) hN0]
      rw [List.nil_append, prefixedReport_empty]
      rw [compositeGo_tail orc (rest.map (fun a => (a, getMetricName a)))
        hnamesTail hclsTail 0 (metricCalculate orc m rs).1
        (metricCalculate orc m rs).2 ?_]
      intro pr hpr p hp
      have hpk : p.1 ∈ classKeys (classOf m) :=
        metric_keys_subset orc m rs (List.mem_map_of_mem Prod.fst hp)
      have hprc : classOf pr.1 ∈ rest.map classOf := by
        rcases List.mem_map.mp hpr with ⟨a, ha, hae⟩
        rw [← hae]
        exact List.mem_map_of_mem classOf ha
      have hne : classOf m ≠ classOf pr.1 := by
        intro hcc
        rw [hcc] at hheadNotin
        exact hheadNotin hprc
      exact plain_disjoint_prefixed (classOf m) (classOf pr.1) hne p.1 hpk
  · cases ms with
    | nil => simp [compositeSpecMerge]
    | cons m rest =>
      unfold compositeSpecMerge
      rw [zip_map_self getMetricName (m :: rest), List.map_cons]
      have hnamesTail : ∀ pr ∈ rest.map (fun a => (a, getMetricName a)),
          pr.2 = getMetricName pr.1 := by
        intro pr hpr
        rcases List.mem_map.mp hpr with ⟨a, _, hae⟩
        rw [← hae]
      have hclsTail : ((rest.map (fun a => (a, getMetricName a))).map
          (fun pr => classOf pr.1)).Nodup := by
        rw [List.map_map]
        have h := hclsms
        simp only [List.map_cons, List.nodup_cons] at h
        exact h.2
      have hheadNotin : classOf m ∉ rest.map classOf := by
        have h := hclsms
        simp only [List.map_cons, List.nodup_cons] at h
        exact h.1
      rcases compositeSpecTail_keys orc (rest.map (fun a => (a, getMetricName a)))
        hnamesTail hclsTail (metricCalculate orc m rs).2 with ⟨hmem, hnd2⟩
      show ((metricCalculate orc m rs).1 ++ _).map Prod.fst |>.Nodup
      rw [List.map_append, List.nodup_append]
      refine ⟨(classKeys_nodup (classOf m)).sublist (metric_keys_sublist orc m rs),
        hnd2, ?_⟩
      intro k hk1 hk2
      rcases hmem k hk2 with ⟨pr, hpr, hkpr⟩
      have hprc : classOf pr.1 ∈ rest.map classOf := by
        rcases List.mem_map.mp hpr with ⟨a, ha, hae⟩
        rw [← hae]
        exact List.mem_map_of_mem classOf ha
      have hne : classOf m ≠ classOf pr.1 := by
        intro hcc
        rw [hcc] at hheadNotin
        exact hheadNotin hprc
      exact plain_disjoint_prefixed (classOf m) (classOf pr.1) hne k
        (metric_keys_subset orc m rs hk1) hkpr

/-- Trivial oracles for concrete evaluations. -/
def orcZero : MetricOracles :=
  { tok := fun _ => [], sb := fun _ _ => 0, rougeScore := fun _ _ _ => (0, 0, 0) }

theorem C7_witness :
    ((([MetricVariant.accuracy, MetricVariant.domainAccuracy] :
        List MetricVariant).map getMetricName).Nodup) ∧
    ((∀ m : MetricVariant,
        getMetricName m = specStripName (classNameStr (classOf m))) ∧
      compositeCalculate orcZero [MetricVariant.accuracy, MetricVariant.domainAccuracy]
          (([MetricVariant.accuracy, MetricVariant.domainAccuracy] :
            List MetricVariant).map getMetricName) []
        = compositeSpecMerge orcZero
            [MetricVariant.accuracy, MetricVariant.domainAccuracy]
            (([MetricVariant.accuracy, MetricVariant.domainAccuracy] :
              List MetricVariant).map getMetricName) [] ∧
      ((compositeSpecMerge orcZero
          [MetricVariant.accuracy, MetricVariant.domainAccuracy]
          (([MetricVariant.accuracy, MetricVariant.domainAccuracy] :
            List MetricVariant).map getMetricName) []).map Prod.fst).Nodup) :=
  ⟨by decide,
   C7_composite_default_names orcZero
     [MetricVariant.accuracy, MetricVariant.domainAccuracy] [] (by decide)⟩

/-- C7 counterexample: with caller-supplied (still pairwise distinct) names
`["r", "rouge1"]` for `[ROUGEMetric, F1ScoreMetric]`, the second metric's
prefixed keys `"rouge1_precision"` and `"rouge1_recall"` collide with the
first metric's own keys of the same names, so dict assignment overwrites
them and the merged report has 16 entries instead of 10 + 8 = 18: key
collisions despite distinct constituent names, refuting the claim as
stated. -/
theorem C7_counterexample :
    (["r", "rouge1"] : List String).Nodup ∧
    (compositeCalculate orcZero [MetricVariant.rouge, MetricVariant.f1Score true]
        ["r", "rouge1"] []).length = 16 ∧
    (metricCalculate orcZero MetricVariant.rouge []).1.length
        + (metricCalculate orcZero (MetricVariant.f1Score true) []).1.length = 18 :=
  ⟨by decide, by decide, by decide⟩

/-! ### C8: exact match on all-matching records, then accuracy -/

/-- C8 counterexample: the empty record list vacuously satisfies "each
record's parsed answer equals its expected answer and both are non-empty",
yet `ExactMatchMetric.calculate` reports accuracy 0.0 there, not 1.0 — the
claim as stated fails on the empty list. -/
theorem C8_counterexample :
    (∀ r ∈ ([] : List ERec),
        r.parsed_answer.getD "" = r.expected_answer.getD "" ∧
        r.parsed_answer.getD "" ≠ "") ∧
    (exactMatchCalculate false true []).1
      = [("total_examples", RVal.nat 0), ("correct_answers", RVal.nat 0),
         ("accuracy", RVal.num 0)] ∧
    RVal.num 0 ≠ RVal.num 1 :=
  ⟨by simp, by rfl, by decide⟩

/-- C8 (amended): for every non-empty record list in which each record's
parsed answer equals its expected answer (both non-empty), exact match
under the defaults (case-insensitive, normalized) reports accuracy 1.0,
sets `is_correct = True` on every record as a side effect, and an
`AccuracyMetric` run over the updated list afterwards produces the very
same report (in particular the same accuracy). -/
theorem C8_exactMatch_all_correct (rs : List ERec) (hne : rs ≠ [])
    (hmatch : ∀ r ∈ rs, r.parsed_answer.getD "" = r.expected_answer.getD "" ∧
        r.parsed_answer.getD "" ≠ "") :
    (exactMatchCalculate false true rs).1
      = [("total_examples", RVal.nat rs.length),
         ("correct_answers", RVal.nat rs.length),
         ("accuracy", RVal.num 1)] ∧
    (∀ r ∈ (exactMatchCalculate false true rs).2, r.is_correct = some true) ∧
    accuracyCalculate (exactMatchCalculate false true rs).2
      = (exactMatchCalculate false true rs).1 := by
  have hcorrect : ∀ r ∈ rs, exactMatchIsCorrect false true r = true := by
    intro r hr
    rcases hmatch r hr with ⟨heq, _⟩
    have hnorm : pyNormalizeText false true (r.parsed_answer.getD "")
        = pyNormalizeText false true (r.expected_answer.getD "") := by rw [heq]
    simp [exactMatchIsCorrect, hnorm]
  have hfilter : rs.filter (fun r => exactMatchIsCorrect false true r) = rs :=
    List.filter_eq_self.mpr (fun a ha => hcorrect a ha)
  have hpos : 0 < rs.length := List.length_pos.mpr hne
  have hcast : (rs.length : ℚ) ≠ 0 := Nat.cast_ne_zero.mpr (by omega)
  have hrep : (exactMatchCalculate false true rs).1
      = [("total_examples", RVal.nat rs.length),
         ("correct_answers", RVal.nat rs.length),
         ("accuracy", RVal.num 1)] := by
    show [("total_examples", RVal.nat rs.length),
          ("correct_answers",
            RVal.nat (rs.filter (fun r => exactMatchIsCorrect false true r)).length),
          ("accuracy", RVal.num (if 0 < rs.length
            then ((rs.filter (fun r => exactMatchIsCorrect false true r)).length : ℚ)
              / rs.length
            else 0))] = _
    rw [hfilter, if_pos hpos, div_self hcast]
  have hupd : ∀ r ∈ (exactMatchCalculate false true rs).2, r.is_correct = some true := by
    intro r hr
    rcases List.mem_map.mp hr with ⟨r0, hr0, hre⟩
    rw [← hre]
    show some (exactMatchIsCorrect false true r0) = some true
    rw [hcorrect r0 hr0]
  refine ⟨hrep, hupd, ?_⟩
  have hlen2 : (exactMatchCalculate false true rs).2.length = rs.length := by
    show (rs.map _).length = rs.length
    rw [List.length_map]
  have hne2 : (exactMatchCalculate false true rs).2 ≠ [] := by
    intro hcon
    rw [hcon] at hlen2
    simp at hlen2
    omega
  have hfilter2 : (exactMatchCalculate false true rs).2.filter
      (fun r => r.is_correct.getD false) = (exactMatchCalculate false true rs).2 :=
    List.filter_eq_self.mpr (fun a ha => by rw [hupd a ha]; rfl)
  unfold accuracyCalculate
  rw [if_neg (by simpa [List.isEmpty_iff] using hne2)]
  rw [hfilter2, hlen2, hrep]
  show [("total_examples", RVal.nat rs.length),
        ("correct_answers", RVal.nat rs.length),
        ("accuracy", RVal.num (if 0 < rs.length
          then (rs.length : ℚ) / (rs.length : ℚ) else 0))] = _
  rw [if_pos hpos, div_self hcast]

/-- A single record whose parsed and expected answers agree. -/
def erecA : ERec :=
  { domain := none, parsed_answer := some "A", expected_answer := some "A",
    is_correct := none }

theorem C8_witness :
    (([erecA] : List ERec) ≠ []) ∧
    ((exactMatchCalculate false true [erecA]).1
        = [("total_examples", RVal.nat ([erecA] : List ERec).length),
           ("correct_answers", RVal.nat ([erecA] : List ERec).length),
           ("accuracy", RVal.num 1)] ∧
      (∀ r ∈ (exactMatchCalculate false true [erecA]).2, r.is_correct = some true) ∧
      accuracyCalculate (exactMatchCalculate false true [erecA]).2
        = (exactMatchCalculate false true [erecA]).1) :=
  ⟨by decide, C8_exactMatch_all_correct [erecA] (by decide) (by decide)⟩

end CourseProj
